import Mathlib

/-!
Shallow embedding of the speaker-tracking vertical reframing engine
(`smart_reframe_vertical.py`): detector candidates, target tracker,
EMA smoother, crop planner, letterbox compositor and audio muxer,
with theorems checking the specification's claims against it.

Python floats are modelled as exact rationals; machine integers as `ℤ`.
-/

/-- Python's builtin `round` (round half to even), on an exact rational. -/
def pyRound (q : ℚ) : ℤ :=
  let f : ℤ := ⌊q⌋
  if q - (f : ℚ) < 1/2 then f
  else if (1:ℚ)/2 < q - (f : ℚ) then f + 1
  else if f % 2 = 0 then f else f + 1

theorem le_pyRound (q : ℚ) : q - 1/2 ≤ (pyRound q : ℚ) := by
  have hf : (⌊q⌋ : ℚ) ≤ q := Int.floor_le q
  have hf' : q < (⌊q⌋ : ℚ) + 1 := Int.lt_floor_add_one q
  unfold pyRound
  dsimp only
  split
  · linarith
  · split
    · push_cast; linarith
    · split <;> push_cast <;> linarith

theorem pyRound_le (q : ℚ) : (pyRound q : ℚ) ≤ q + 1/2 := by
  have hf : (⌊q⌋ : ℚ) ≤ q := Int.floor_le q
  have hf' : q < (⌊q⌋ : ℚ) + 1 := Int.lt_floor_add_one q
  unfold pyRound
  dsimp only
  split
  · linarith
  · rename_i h1
    push_neg at h1
    split
    · push_cast; linarith
    · rename_i h2
      push_neg at h2
      have heq : q - (⌊q⌋ : ℚ) = 1/2 := le_antisymm h2 h1
      split <;> push_cast <;> linarith

/-- Crop window width, computed once per video:
`crop_w = max(64, min(int(round(H * 9 / 16)), W))`. -/
def cropW (W H : ℤ) : ℤ := max 64 (min (pyRound ((H : ℚ) * 9 / 16)) W)

/-- Crop left edge for a smoothed x-center `xc`:
`x1 = max(0.0, min(W - crop_w, xc - crop_w / 2.0))`. -/
def x1At (W H : ℤ) (xc : ℚ) : ℚ :=
  max 0 (min ((W : ℚ) - (cropW W H : ℚ)) (xc - (cropW W H : ℚ) / 2))

theorem cropW_le_width {W : ℤ} (H : ℤ) (hW : 64 ≤ W) : cropW W H ≤ W :=
  max_le hW (min_le_right _ _)

/-- Claim C1 as stated is false: for a source narrower than 64 px
(here `W = 32`, `H = 1080`, smoothed center 16, which lies inside `[0, W-1]`),
the crop width is forced up to 64, so `W - crop_w = -32 < 0`, yet the code
produces `left_edge = 0`, violating `left_edge ≤ source_width - crop_width`. -/
theorem c1_counterexample :
    cropW 32 1080 = 64 ∧ x1At 32 1080 16 = 0 ∧
    ¬ (x1At 32 1080 16 ≤ (32 : ℚ) - (cropW 32 1080 : ℚ)) := by
  refine ⟨by norm_num [cropW, pyRound], by norm_num [x1At, cropW, pyRound], ?_⟩
  norm_num [x1At, cropW, pyRound]

/-- Claim C1 (amended): whenever the source is at least 64 px wide, the crop
left edge equals `max(0, min(W - crop_w, xc - crop_w/2))` and satisfies
`0 ≤ left_edge ≤ source_width - crop_width` for every smoothed center. -/
theorem c1_clamp_invariant (W H : ℤ) (xc : ℚ) (hW : 64 ≤ W) :
    x1At W H xc = max 0 (min ((W : ℚ) - (cropW W H : ℚ)) (xc - (cropW W H : ℚ) / 2)) ∧
    0 ≤ x1At W H xc ∧ x1At W H xc ≤ (W : ℚ) - (cropW W H : ℚ) := by
  have hcw : cropW W H ≤ W := cropW_le_width H hW
  have hB : (0 : ℚ) ≤ (W : ℚ) - (cropW W H : ℚ) := by
    have : (cropW W H : ℚ) ≤ (W : ℚ) := by exact_mod_cast hcw
    linarith
  refine ⟨rfl, le_max_left _ _, ?_⟩
  exact max_le hB (min_le_left _ _)

/-- Witness for C1 (amended) at a 1920x1080 source with smoothed center 1000. -/
theorem c1_clamp_invariant_witness :
    0 ≤ x1At 1920 1080 1000 ∧ x1At 1920 1080 1000 ≤ (1920 : ℚ) - (cropW 1920 1080 : ℚ) :=
  ⟨(c1_clamp_invariant 1920 1080 1000 (by norm_num)).2.1,
   (c1_clamp_invariant 1920 1080 1000 (by norm_num)).2.2⟩

/-- Claim C6: the crop width is computed once from the source height as
`clamp(round(H*9/16), 64, W)`; for a 1920x1080 source it equals
`round(607.5) = 608` and a smoothed center of 1000 yields a left edge of
`clamp(1000 - 304, 0, 1312) = 696`. -/
theorem c6_crop_geometry :
    (∀ W H : ℤ, cropW W H = max 64 (min (pyRound ((H : ℚ) * 9 / 16)) W)) ∧
    cropW 1920 1080 = 608 ∧ x1At 1920 1080 1000 = 696 := by
  refine ⟨fun W H => rfl, by norm_num [cropW, pyRound], ?_⟩
  norm_num [x1At, cropW, pyRound]

/-- A detection candidate box `(x, y, w, h)` as returned by
`face_cascade.detectMultiScale` (integer pixel coordinates). -/
structure Box where
  x : ℤ
  y : ℤ
  w : ℤ
  h : ℤ
deriving DecidableEq

/-- A scored candidate `(score, xc, area)`, as built by the per-face loop. -/
abbrev Cand : Type := ℚ × ℚ × ℚ

/-- Tracking parameters of `detect_xcenters` (plus the detection stride). -/
structure Params where
  stride : ℤ
  stickFrames : ℤ
  switchAreaRatio : ℚ
  maxPxJump : ℤ
  preferNearPrev : Bool
deriving DecidableEq

/-- The tracker state `{target_xc, target_area, frames_since_switch}`. -/
structure TrackState where
  targetXc : ℚ
  targetArea : ℚ
  framesSinceSwitch : ℤ
deriving DecidableEq

/-- Initial tracker state: `{W / 2.0, 1.0, 10**9}`. -/
def initState (W : ℤ) : TrackState := ⟨(W : ℚ) / 2, 1, 10 ^ 9⟩

/-- `area = float(w) * float(h)`. -/
def Box.area (b : Box) : ℚ := (b.w : ℚ) * (b.h : ℚ)

/-- `xc = x + w / 2.0`. -/
def Box.xc (b : Box) : ℚ := (b.x : ℚ) + (b.w : ℚ) / 2

/-- `score = (area - dist) if prefer_near_prev else area`. -/
def scoreOf (p : Params) (st : TrackState) (b : Box) : ℚ :=
  if p.preferNearPrev then b.area - |b.xc - st.targetXc| else b.area

/-- The candidate list `(score, xc, area)` in face-enumeration order. -/
def mkCands (p : Params) (st : TrackState) (faces : List Box) : List Cand :=
  faces.map (fun b => (scoreOf p st b, b.xc, b.area))

/-- Stable descending insertion (later elements go after equal-score earlier
ones), modelling `candidates.sort(reverse=True, key=lambda t: t[0])`. -/
def insertDesc (c : Cand) : List Cand → List Cand
  | [] => [c]
  | d :: l => if d.1 ≤ c.1 then c :: d :: l else d :: insertDesc c l

/-- Python's stable sort with `reverse=True`, keyed on the score. -/
def sortDesc (l : List Cand) : List Cand := l.foldr insertDesc []

/-- `candidates[0]` after the sort (the list is nonempty at every use site). -/
def selectBest (l : List Cand) : Cand := (sortDesc l).headD (0, 0, 0)

/-- Modelled from the spec words of C9: the argmax of the score, ties broken
by candidate enumeration order (used only to compare with `selectBest`). -/
def firstArgmaxSpec : List Cand → Option Cand
  | [] => none
  | c :: l =>
    match firstArgmaxSpec l with
    | none => some c
    | some m => if m.1 ≤ c.1 then some c else some m

/-- `np.sign` on an exact rational. -/
def npSign (q : ℚ) : ℚ := if q < 0 then -1 else if 0 < q then 1 else 0

/-- The switch test of `detect_xcenters` (area-ratio clause first, then the
proximity clause), entered only when `frames_since_switch >= stick_frames`. -/
def shouldSwitchB (p : Params) (W : ℤ) (st : TrackState) (bestXc bestArea : ℚ) : Bool :=
  if p.stickFrames ≤ st.framesSinceSwitch then
    if p.switchAreaRatio * st.targetArea ≤ bestArea then true
    else if p.preferNearPrev = true ∧ |bestXc - st.targetXc| < (W : ℚ) * (15/100) ∧
            st.targetArea * (11/10) < bestArea then true
    else false
  else false

/-- One detection step of the Target Tracker (the body under
`if len(faces) > 0:`); with no candidates the state is returned unchanged. -/
def trackStep (p : Params) (W : ℤ) (st : TrackState) (faces : List Box) : TrackState :=
  match faces with
  | [] => st
  | _ :: _ =>
    let best := selectBest (mkCands p st faces)
    let bestXc := best.2.1
    let bestArea := best.2.2
    if shouldSwitchB p W st bestXc bestArea then
      ⟨bestXc, max 1 bestArea, 0⟩
    else
      let delta0 := bestXc - st.targetXc
      let delta := if (p.maxPxJump : ℚ) < |delta0| then npSign delta0 * (p.maxPxJump : ℚ)
                   else delta0
      ⟨st.targetXc + delta, (9/10) * st.targetArea + (1/10) * max 1 bestArea,
       st.framesSinceSwitch + 1⟩

/-- `stride <= 1 or frame_idx % stride == 0`. -/
def isDetectStep (stride : ℤ) (i : ℕ) : Bool :=
  if stride ≤ 1 then true else decide ((i : ℤ) % stride = 0)

/-- Per-frame transition: run the detector/tracker on detection steps, keep
the state unchanged otherwise. -/
def frameStep (p : Params) (W : ℤ) (i : ℕ) (st : TrackState) (faces : List Box) : TrackState :=
  if isDetectStep p.stride i then trackStep p W st faces else st

/-- A qualifying switch happens at frame `i` iff it is a detection step with a
nonempty candidate set on which the switch test fires. -/
def qualSwitchB (p : Params) (W : ℤ) (i : ℕ) (st : TrackState) (faces : List Box) : Bool :=
  isDetectStep p.stride i && !faces.isEmpty &&
    shouldSwitchB p W st (selectBest (mkCands p st faces)).2.1
      (selectBest (mkCands p st faces)).2.2

/-- Pass 1 main loop: thread the tracker state over the frames (each frame
abstracted by the detector output it would produce) and append `target_xc`
after the per-frame update. -/
def runAux (p : Params) (W : ℤ) : ℕ → TrackState → List (List Box) → List ℚ
  | _, _, [] => []
  | i, st, f :: fs =>
    let st' := frameStep p W i st f
    st'.targetXc :: runAux p W (i + 1) st' fs

/-- The raw trajectory `xcenters_raw` produced by `detect_xcenters`. -/
def detectXcentersRaw (p : Params) (W : ℤ) (frames : List (List Box)) : List ℚ :=
  runAux p W 0 (initState W) frames

/-- Claim C2 (amended): on a detection step with zero candidates the tracker
leaves the whole state unchanged -- `current_x`, `current_area` AND
`frames_since_switch` (the code does not increment it, contrary to the claim);
the raw trajectory entry for such a frame repeats the previous target value
since the appended `target_xc` is the unchanged one. -/
theorem c2_amended (p : Params) (W : ℤ) (st : TrackState) (i : ℕ) :
    trackStep p W st [] = st ∧ frameStep p W i st [] = st := by
  refine ⟨rfl, ?_⟩
  unfold frameStep
  split <;> rfl

/-- Claim C2 as stated is false: on an empty detection the code leaves
`frames_since_switch` at its previous value (here 3) instead of
incrementing it to 4. -/
theorem c2_counterexample :
    (trackStep ⟨4, 35, 2, 30, true⟩ 1920 ⟨100, 50, 3⟩ []).framesSinceSwitch = 3 ∧
    ¬ ((trackStep ⟨4, 35, 2, 30, true⟩ 1920 ⟨100, 50, 3⟩ []).framesSinceSwitch =
        (⟨100, 50, 3⟩ : TrackState).framesSinceSwitch + 1) := by
  exact ⟨rfl, by decide⟩

/-- The head of the stable descending sort is the earliest candidate of
maximal score. -/
theorem sortDesc_head_firstArgmax (l : List Cand) :
    (sortDesc l).head? = firstArgmaxSpec l := by
  induction l with
  | nil => rfl
  | cons c l ih =>
    show (insertDesc c (sortDesc l)).head? = _
    cases hs : sortDesc l with
    | nil =>
      rw [hs] at ih
      simp [insertDesc, firstArgmaxSpec, ← ih]
    | cons d t =>
      rw [hs] at ih
      by_cases hc : d.1 ≤ c.1
      · simp [insertDesc, hc, firstArgmaxSpec, ← ih]
      · simp [insertDesc, hc, firstArgmaxSpec, ← ih]

/-- Claim C3: on a detection step with a nonempty candidate set, once
`frames_since_switch >= stick_frames` and `area(best) >= ratio * current_area`
(the area-ratio clause, checked before the proximity clause), the tracker
switches: `current_x <- x(best)`, `current_area <- max(1, area(best))`,
`frames_since_switch <- 0`, regardless of the proximity clause. -/
theorem c3_area_ratio_switch (p : Params) (W : ℤ) (st : TrackState) (b : Box) (bs : List Box)
    (hstick : p.stickFrames ≤ st.framesSinceSwitch)
    (harea : p.switchAreaRatio * st.targetArea ≤ (selectBest (mkCands p st (b :: bs))).2.2) :
    trackStep p W st (b :: bs) =
      ⟨(selectBest (mkCands p st (b :: bs))).2.1,
       max 1 (selectBest (mkCands p st (b :: bs))).2.2, 0⟩ := by
  have hsw : shouldSwitchB p W st (selectBest (mkCands p st (b :: bs))).2.1
      (selectBest (mkCands p st (b :: bs))).2.2 = true := by
    unfold shouldSwitchB
    rw [if_pos hstick, if_pos harea]
  simp only [trackStep, hsw, if_true]

/-- Claim C4: when no qualifying switch happens at a frame, the tracked
position moves by at most `max_px_jump` (and not at all on frames between
detection steps). -/
theorem c4_stickiness (p : Params) (W : ℤ) (i : ℕ) (st : TrackState) (faces : List Box)
    (hj : 0 ≤ p.maxPxJump)
    (hq : qualSwitchB p W i st faces = false) :
    |(frameStep p W i st faces).targetXc - st.targetXc| ≤ (p.maxPxJump : ℚ) ∧
    (isDetectStep p.stride i = false → frameStep p W i st faces = st) := by
  have hj' : (0 : ℚ) ≤ (p.maxPxJump : ℚ) := by exact_mod_cast hj
  constructor
  · by_cases hd : isDetectStep p.stride i
    · cases faces with
      | nil =>
        simp [frameStep, hd, trackStep, hj']
      | cons b bs =>
        have hsw : shouldSwitchB p W st (selectBest (mkCands p st (b :: bs))).2.1
            (selectBest (mkCands p st (b :: bs))).2.2 = false := by
          simpa [qualSwitchB, hd] using hq
        simp only [frameStep, hd, if_true, trackStep, hsw, Bool.false_eq_true, if_false]
        set d0 := (selectBest (mkCands p st (b :: bs))).2.1 - st.targetXc with hd0
        by_cases hc : (p.maxPxJump : ℚ) < |d0|
        · rw [if_pos hc]
          have h1 : st.targetXc + npSign d0 * (p.maxPxJump : ℚ) - st.targetXc
              = npSign d0 * (p.maxPxJump : ℚ) := by ring
          rw [h1]
          rcases lt_trichotomy d0 0 with h | h | h
          · simp only [npSign, if_pos h]
            rw [abs_of_nonpos (by linarith)]
            linarith
          · simp [npSign, h, hj']
          · simp only [npSign, if_neg (not_lt.mpr (le_of_lt h)), if_pos h]
            rw [abs_of_nonneg (by linarith), one_mul]
        · rw [if_neg hc]
          push_neg at hc
          have h1 : st.targetXc + d0 - st.targetXc = d0 := by ring
          rw [h1]
          exact hc
    · simp [frameStep, hd, hj']
  · intro h
    simp [frameStep, h]

/-- Claim C9: `detect_xcenters` is deterministic, and among equal-score
candidates the stable descending sort selects the one earliest in candidate
enumeration order. -/
theorem c9_deterministic_tiebreak (p : Params) (st : TrackState) (faces : List Box) :
    (sortDesc (mkCands p st faces)).head? = firstArgmaxSpec (mkCands p st faces) ∧
    (∀ (fr1 fr2 : List (List Box)) (W : ℤ), fr1 = fr2 →
      detectXcentersRaw p W fr1 = detectXcentersRaw p W fr2) :=
  ⟨sortDesc_head_firstArgmax _, fun _ _ _ h => by rw [h]⟩

/-- Witness for C9: two candidates tie at score 9940; the earlier one
(center x = 900) is selected. -/
theorem c9_witness :
    (sortDesc (mkCands ⟨1, 35, 2, 30, true⟩ ⟨960, 1, 10⟩
        [⟨850, 0, 100, 100⟩, ⟨970, 0, 100, 100⟩])).head? =
      firstArgmaxSpec (mkCands ⟨1, 35, 2, 30, true⟩ ⟨960, 1, 10⟩
        [⟨850, 0, 100, 100⟩, ⟨970, 0, 100, 100⟩]) ∧
    (sortDesc (mkCands ⟨1, 35, 2, 30, true⟩ ⟨960, 1, 10⟩
        [⟨850, 0, 100, 100⟩, ⟨970, 0, 100, 100⟩])).head? =
      some (9940, 900, 10000) ∧
    detectXcentersRaw ⟨1, 35, 2, 30, true⟩ 1920 [[]] =
      detectXcentersRaw ⟨1, 35, 2, 30, true⟩ 1920 [[]] := by
  refine ⟨(c9_deterministic_tiebreak _ _ _).1, ?_,
    (c9_deterministic_tiebreak ⟨1, 35, 2, 30, true⟩ ⟨960, 1, 10⟩ []).2 [[]] [[]] 1920 rfl⟩
  norm_num [sortDesc, mkCands, insertDesc, scoreOf, Box.xc, Box.area, abs]

/-- Witness for C3, Scenario C: target area 10000 at x=300, candidate of area
25000 at x=1200, ratio 2.0, stick window elapsed: immediate switch to
`(1200, 25000, 0)`. -/
theorem c3_witness :
    trackStep ⟨1, 35, 2, 30, true⟩ 1920 ⟨300, 10000, 35⟩ [⟨1100, 0, 200, 125⟩] =
      ⟨1200, 25000, 0⟩ := by
  have h := c3_area_ratio_switch ⟨1, 35, 2, 30, true⟩ 1920 ⟨300, 10000, 35⟩
    ⟨1100, 0, 200, 125⟩ []
    (by norm_num)
    (by norm_num [selectBest, sortDesc, mkCands, insertDesc, scoreOf, Box.xc, Box.area, abs])
  rw [h]
  norm_num [selectBest, sortDesc, mkCands, insertDesc, scoreOf, Box.xc, Box.area, abs]

/-- Witness for C4: a far-away candidate moves the target by exactly the
clamp bound 30. -/
theorem c4_witness :
    |(frameStep ⟨1, 35, 2, 30, true⟩ 1920 0 ⟨300, 10000, 0⟩
        [⟨1100, 0, 200, 125⟩]).targetXc - (300 : ℚ)| ≤ ((30 : ℤ) : ℚ) :=
  (c4_stickiness ⟨1, 35, 2, 30, true⟩ 1920 0 ⟨300, 10000, 0⟩ [⟨1100, 0, 200, 125⟩]
    (by norm_num)
    (by norm_num [qualSwitchB, isDetectStep, shouldSwitchB, selectBest, sortDesc,
      mkCands, insertDesc, scoreOf, Box.xc, Box.area, abs])).1

/-- The loop body of `ema_smooth`: given the previous output value, produce
`out[i] = alpha * out[i-1] + (1 - alpha) * data[i]` for each remaining item. -/
def emaGo (alpha prev : ℚ) : List ℚ → List ℚ
  | [] => []
  | x :: xs =>
    let v := alpha * prev + (1 - alpha) * x
    v :: emaGo alpha v xs

/-- `ema_smooth(data, alpha)`: empty input gives an empty output, otherwise
`out[0] = data[0]` and the EMA recurrence for the rest. -/
def ema_smooth (data : List ℚ) (alpha : ℚ) : List ℚ :=
  match data with
  | [] => []
  | d :: ds => d :: emaGo alpha d ds

theorem emaGo_length (alpha prev : ℚ) (l : List ℚ) :
    (emaGo alpha prev l).length = l.length := by
  induction l generalizing prev with
  | nil => rfl
  | cons x xs ih => simp [emaGo, ih]

theorem emaGo_getD (alpha : ℚ) (l : List ℚ) :
    ∀ (prev : ℚ) (i : ℕ), i < l.length →
      (emaGo alpha prev l).getD i 0 =
        alpha * ((prev :: emaGo alpha prev l).getD i 0) + (1 - alpha) * l.getD i 0 := by
  induction l with
  | nil => intro prev i h; simp at h
  | cons x xs ih =>
    intro prev i h
    cases i with
    | zero => simp [emaGo]
    | succ j =>
      have hj : j < xs.length := by simpa using h
      simpa [emaGo] using ih (alpha * prev + (1 - alpha) * x) j hj

/-- Claim C5: for any smoothing factor in `[0,1)`, `ema_smooth` maps the empty
trajectory to the empty one, preserves length, anchors `smoothed[0] = raw[0]`,
and satisfies `smoothed[i] = alpha * smoothed[i-1] + (1-alpha) * raw[i]` for
every `i >= 1`. -/
theorem c5_ema_smooth_spec (data : List ℚ) (alpha : ℚ)
    (h0 : 0 ≤ alpha) (h1 : alpha < 1) :
    ema_smooth [] alpha = [] ∧
    (ema_smooth data alpha).length = data.length ∧
    (∀ d ds, data = d :: ds → (ema_smooth data alpha).headD 0 = d) ∧
    (∀ i : ℕ, i + 1 < data.length →
      (ema_smooth data alpha).getD (i + 1) 0 =
        alpha * ((ema_smooth data alpha).getD i 0) + (1 - alpha) * data.getD (i + 1) 0) := by
  refine ⟨rfl, ?_, ?_, ?_⟩
  · cases data with
    | nil => rfl
    | cons d ds => simp [ema_smooth, emaGo_length]
  · rintro d ds rfl
    rfl
  · intro i hi
    cases data with
    | nil => simp at hi
    | cons d ds =>
      have hi' : i < ds.length := by simpa using hi
      have h := emaGo_getD alpha ds d i hi'
      simpa [ema_smooth] using h

/-- Witness for C5 at `data = [3, 5]`, `alpha = 1/2`: the length is preserved,
the anchor holds, and `smoothed[1] = (1/2)*3 + (1/2)*5`. -/
theorem c5_witness :
    (ema_smooth [(3 : ℚ), 5] (1/2)).length = 2 ∧
    (ema_smooth [(3 : ℚ), 5] (1/2)).headD 0 = 3 ∧
    (ema_smooth [(3 : ℚ), 5] (1/2)).getD 1 0 =
      (1/2) * ((ema_smooth [(3 : ℚ), 5] (1/2)).getD 0 0) + (1 - 1/2) * 5 :=
  ⟨(c5_ema_smooth_spec [(3 : ℚ), 5] (1/2) (by norm_num) (by norm_num)).2.1,
   (c5_ema_smooth_spec [(3 : ℚ), 5] (1/2) (by norm_num) (by norm_num)).2.2.1 3 [5] rfl,
   by simpa using
     (c5_ema_smooth_spec [(3 : ℚ), 5] (1/2) (by norm_num) (by norm_num)).2.2.2 0 (by norm_num)⟩

/-- `x_smooth = np.clip(x_smooth, 0, W - 1)`, applied right after smoothing. -/
def clipSmoothed (W : ℤ) (xs : List ℚ) : List ℚ :=
  xs.map (fun q => max 0 (min ((W : ℚ) - 1) q))

/-- The smoothed-and-clipped trajectory the Crop Planner consumes. -/
def smoothedClipped (W : ℤ) (raw : List ℚ) (alpha : ℚ) : List ℚ :=
  clipSmoothed W (ema_smooth raw alpha)

/-- The per-frame crop left edges of the whole video, computed from the
clipped smoothed trajectory. -/
def leftEdges (W H : ℤ) (raw : List ℚ) (alpha : ℚ) : List ℚ :=
  (smoothedClipped W raw alpha).map (x1At W H)

/-- Claim C10: after EMA smoothing the trajectory is clamped element-wise into
`[0, W-1]` before any crop computation, so every smoothed value the Crop
Planner consumes (via `leftEdges`) lies in `[0, W-1]`, whatever the raw
tracked positions were. -/
theorem c10_smoothed_clipped (W : ℤ) (raw : List ℚ) (alpha : ℚ) (hW : 1 ≤ W) :
    ∀ v ∈ smoothedClipped W raw alpha, 0 ≤ v ∧ v ≤ (W : ℚ) - 1 := by
  intro v hv
  have hW' : (0 : ℚ) ≤ (W : ℚ) - 1 := by
    have : (1 : ℚ) ≤ (W : ℚ) := by exact_mod_cast hW
    linarith
  rcases List.mem_map.mp hv with ⟨q, _, rfl⟩
  exact ⟨le_max_left _ _, max_le hW' (min_le_left _ _)⟩

/-- Witness for C10: with `W = 100` and raw trajectory `[-50, 3000]` (outside
the frame) and `alpha = 0`, the clipped smoothed values are `[0, 99]`, and the
first one satisfies the bounds. -/
theorem c10_witness :
    smoothedClipped 100 [(-50 : ℚ), 3000] 0 = [0, 99] ∧
    (0 ≤ (0 : ℚ) ∧ (0 : ℚ) ≤ (100 : ℚ) - 1) :=
  ⟨by norm_num [smoothedClipped, clipSmoothed, ema_smooth, emaGo],
   c10_smoothed_clipped 100 [(-50 : ℚ), 3000] 0 (by norm_num) 0
     (by norm_num [smoothedClipped, clipSmoothed, ema_smooth, emaGo])⟩

/-- Letterbox vertical alignment choices. -/
inductive Align
  | top
  | center
  | bottom
deriving DecidableEq

/-- `lb = max(0.5, min(1.0, args.letterbox))`. -/
def lbClamp (letterbox : ℚ) : ℚ := max (1/2) (min 1 letterbox)

/-- `inner_w = int(round(TARGET_W * lb))` with `TARGET_W = 1080`. -/
def innerW (letterbox : ℚ) : ℤ := pyRound (1080 * lbClamp letterbox)

/-- `inner_h = int(round(TARGET_H * lb))` with `TARGET_H = 1920`. -/
def innerH (letterbox : ℚ) : ℤ := pyRound (1920 * lbClamp letterbox)

/-- `x0_inner = (TARGET_W - inner_w) // 2` (Python floor division). -/
def x0Inner (letterbox : ℚ) : ℤ := Int.fdiv (1080 - innerW letterbox) 2

/-- The vertical offset of the inner rectangle for each alignment. -/
def y0Inner (a : Align) (letterbox : ℚ) : ℤ :=
  match a with
  | .top => 0
  | .bottom => 1920 - innerH letterbox
  | .center => Int.fdiv (1920 - innerH letterbox) 2

theorem innerW_le (letterbox : ℚ) : innerW letterbox ≤ 1080 := by
  have h1 : lbClamp letterbox ≤ 1 :=
    max_le (by norm_num) (min_le_left _ _)
  have h2 : (innerW letterbox : ℚ) ≤ 1080 * lbClamp letterbox + 1/2 := pyRound_le _
  have h3 : (innerW letterbox : ℚ) < 1081 := by nlinarith
  have h4 : innerW letterbox < 1081 := by exact_mod_cast h3
  omega

theorem innerH_le (letterbox : ℚ) : innerH letterbox ≤ 1920 := by
  have h1 : lbClamp letterbox ≤ 1 :=
    max_le (by norm_num) (min_le_left _ _)
  have h2 : (innerH letterbox : ℚ) ≤ 1920 * lbClamp letterbox + 1/2 := pyRound_le _
  have h3 : (innerH letterbox : ℚ) < 1921 := by nlinarith
  have h4 : innerH letterbox < 1921 := by exact_mod_cast h3
  omega

theorem fdiv_two_facts {a : ℤ} (ha : 0 ≤ a) :
    0 ≤ Int.fdiv a 2 ∧ 2 * Int.fdiv a 2 ≤ a ∧ a ≤ 2 * Int.fdiv a 2 + 1 := by
  have h := Int.fdiv_add_fmod a 2
  have h2 : Int.fdiv a 2 = a / 2 := Int.fdiv_eq_ediv a (by norm_num)
  rw [h2] at h ⊢
  omega

/-- Claim C7: for every letterbox factor (clamped into [0.5, 1]) the inner
content rectangle measures `round(1080*lb) x round(1920*lb)` and is
horizontally centered (left and right padding differ by at most one pixel);
`top` places it flush to the top with all vertical padding at the bottom,
`bottom` flush to the bottom, `center` vertically centered; in particular
`lb = 0.8` with `align = top` fills the top 1536 of 1920 rows (80%), leaving
384 rows (20%) of black padding at the bottom, horizontally centered at
`x0 = 108`. -/
theorem c7_letterbox_placement : ∀ letterbox : ℚ,
    (innerW letterbox = pyRound (1080 * lbClamp letterbox) ∧
     innerH letterbox = pyRound (1920 * lbClamp letterbox)) ∧
    (0 ≤ x0Inner letterbox ∧
     x0Inner letterbox ≤ 1080 - innerW letterbox - x0Inner letterbox ∧
     1080 - innerW letterbox - x0Inner letterbox ≤ x0Inner letterbox + 1) ∧
    (y0Inner .top letterbox = 0 ∧ 0 ≤ 1920 - innerH letterbox) ∧
    (y0Inner .bottom letterbox + innerH letterbox = 1920 ∧
     0 ≤ y0Inner .bottom letterbox) ∧
    (y0Inner .center letterbox ≤ 1920 - innerH letterbox - y0Inner .center letterbox ∧
     1920 - innerH letterbox - y0Inner .center letterbox ≤ y0Inner .center letterbox + 1) ∧
    (innerW (8/10) = 864 ∧ innerH (8/10) = 1536 ∧ x0Inner (8/10) = 108 ∧
     y0Inner .top (8/10) = 0 ∧ 1920 - innerH (8/10) = 384) := by
  have hiW : innerW (8/10) = 864 := by norm_num [innerW, lbClamp, pyRound]
  have hiH : innerH (8/10) = 1536 := by norm_num [innerH, lbClamp, pyRound]
  intro lb
  have hW := innerW_le lb
  have hH := innerH_le lb
  have hx := fdiv_two_facts (a := 1080 - innerW lb) (by omega)
  have hy := fdiv_two_facts (a := 1920 - innerH lb) (by omega)
  obtain ⟨hx1, hx2, hx3⟩ := hx
  obtain ⟨hy1, hy2, hy3⟩ := hy
  refine ⟨⟨rfl, rfl⟩, ⟨hx1, by simp only [x0Inner]; omega, by simp only [x0Inner]; omega⟩,
    ⟨rfl, by omega⟩, ⟨by simp only [y0Inner]; omega, by simp only [y0Inner]; omega⟩,
    ⟨by simp only [y0Inner]; omega, by simp only [y0Inner]; omega⟩,
    hiW, hiH, ?_, rfl, by omega⟩
  show Int.fdiv (1080 - innerW (8/10)) 2 = 108
  rw [hiW]
  decide

/-- The files the muxing stage touches: the rendered output at `out_path`,
the original video's audio, and the two temporaries. Contents are abstract
strings. -/
structure MuxFS where
  out : String
  origAudio : String
  tmpAudio : Option String
  tmpMuxed : Option String
deriving DecidableEq

/-- Abstract result of the ffmpeg mux command combining the rendered video
stream with the extracted audio. -/
def muxStreams (video audio : String) : String := video ++ "+" ++ audio

/-- `mux_audio`: run the extract-audio subprocess (`check=True` raises on a
nonzero exit, modelled by returning the exit code), then the mux subprocess,
and only after both succeed `os.replace` the temporary onto `out_path`.
Returns the filesystem and `some code` when a subprocess failed. -/
def mux_audio (extractExit muxExit : ℕ) (fs : MuxFS) : MuxFS × Option ℕ :=
  if extractExit ≠ 0 then (fs, some extractExit)
  else
    let fs1 : MuxFS := { fs with tmpAudio := some fs.origAudio }
    if muxExit ≠ 0 then (fs1, some muxExit)
    else
      let muxed := muxStreams fs1.out (fs1.tmpAudio.getD "")
      ({ fs1 with out := muxed, tmpMuxed := none }, none)

/-- The `try/except` around `mux_audio` in `main`: on success the temporary
audio file is removed; on any exception a warning is emitted (second
component `true`) and the run continues normally. -/
def mainMuxStage (extractExit muxExit : ℕ) (fs : MuxFS) : MuxFS × Bool :=
  match mux_audio extractExit muxExit fs with
  | (fs1, none) => ({ fs1 with tmpAudio := none }, false)
  | (fs1, some _) => (fs1, true)

/-- Claim C8: if either ffmpeg subprocess exits non-zero, the failure is
caught, a warning is emitted, the file at `out_path` is left exactly equal to
the video-only render, and the stage still completes (it is a total
function). -/
theorem c8_mux_failure_recoverable (e m : ℕ) (fs : MuxFS) (h : e ≠ 0 ∨ m ≠ 0) :
    (mainMuxStage e m fs).1.out = fs.out ∧ (mainMuxStage e m fs).2 = true := by
  by_cases he : e = 0
  · have hm : m ≠ 0 := h.resolve_left (by simp [he])
    subst he
    simp [mainMuxStage, mux_audio, hm]
  · simp [mainMuxStage, mux_audio, he]

/-- Witness for C8, Scenario E: the extract-audio subprocess exits 1; the
output file keeps the video-only render and the warning flag is set. -/
theorem c8_witness :
    (mainMuxStage 1 0 ⟨"render", "audio", none, none⟩).1.out = "render" ∧
    (mainMuxStage 1 0 ⟨"render", "audio", none, none⟩).2 = true :=
  c8_mux_failure_recoverable 1 0 ⟨"render", "audio", none, none⟩ (Or.inl (by norm_num))
